import Mathlib

/-!
Verification of the `sentry-rate-limiting` repository.

Shallow embedding of `src/sentry_rate_limiting/process_event_limiter.py`:
the issue-fingerprint extractor (`build_event_fingerprint` and its three
shape-specific helpers) and the sliding-window limiter
(`PerProcessPerIssueEventLimiter`).

Modelling decisions:
* `datetime` values and `timedelta` durations are integers counting seconds;
  `timedelta(minutes=m)` becomes `60 * m`.
* The `defaultdict(deque)` mapping fingerprints to timestamp deques is a total
  function `String → List Int` whose default value is `[]` (exactly the
  observable behaviour of `defaultdict`: every lookup succeeds, absent keys
  read as empty).
* Python exceptions raised by the fingerprint extractor become an explicit
  `Except FpError` result; the two `NotImplementedError` raise sites and the
  potential `IndexError` on `values[0]` are distinct constructors.
* The wall clock `datetime.now` is passed in as an explicit `now` argument
  (the spec requires the time source to be injectable).
* `before_send` additionally returns the post-call limiter state and the
  number of warnings logged during the call.
-/

namespace SentryRateLimiting

/-- One stack frame, carrying the fields the fingerprint code reads
(`frame.filename` / `frame["abs_path"]` and `frame.lineno` / `frame["lineno"]`)
plus the frame's function name, which the source objects carry but the
fingerprint never reads. -/
structure Frame where
  filename : String
  lineno : Nat
  function : String
deriving DecidableEq, Repr

/-- One entry of `event["threads"]["values"]`: its `stacktrace.frames` list. -/
structure ThreadValue where
  frames : List Frame
deriving DecidableEq, Repr

/-- The slice of a `logging.LogRecord` read by `_fingerprint_from_log_record`:
`pathname`, `lineno` and the message template `msg`. -/
structure LogRecord where
  pathname : String
  lineno : Nat
  msg : String
deriving DecidableEq, Repr

/-- A Sentry event, reduced to the structure the limiter reads:
`threads = some vs` models `"threads" in event` with
`event["threads"]["values"] = vs`; `threads = none` models an event without a
`"threads"` key.  The malformed input `{}` is `⟨none⟩`. -/
structure Event where
  threads : Option (List ThreadValue)
deriving DecidableEq, Repr

/-- A Sentry hint, reduced to the keys the limiter reads.
`excInfo = some tb` models `"exc_info" in hint`, with `tb` the static frame
summary `traceback.extract_tb(hint["exc_info"][2])`; `logRecord = some lr`
models `"log_record" in hint`.  The malformed input `{}` is `⟨none, none⟩`. -/
structure Hint where
  excInfo : Option (List Frame)
  logRecord : Option LogRecord
deriving DecidableEq, Repr

/-- The failures `build_event_fingerprint` can raise:
`unsupportedShape` is the `NotImplementedError("unhandled case ...")` at the end
of `build_event_fingerprint`; `ambiguousMultiThread` is the
`NotImplementedError("got multiple values ...")` in `_fingerprint_from_threads`;
`indexOutOfBounds` is the `IndexError` Python raises on
`event["threads"]["values"][0]` when the values list is empty. -/
inductive FpError where
  | unsupportedShape
  | ambiguousMultiThread
  | indexOutOfBounds
deriving DecidableEq, Repr

/-- Python's `"\n".join(parts)`. -/
def joinLines : List String → String
  | [] => ""
  | [s] => s
  | s :: rest => s ++ "\n" ++ joinLines rest

/-- The per-frame f-string `f"{frame.filename}:{frame.lineno}"` (identically
`f"{frame['abs_path']}:{frame['lineno']}"` for thread frames). -/
def frameLine (fr : Frame) : String :=
  fr.filename ++ ":" ++ toString fr.lineno

/-- The newline-join of per-frame `file:line` strings shared by
`_fingerprint_from_exc_info` and `_fingerprint_from_threads`. -/
def fingerprintOfFrames (frames : List Frame) : String :=
  joinLines (frames.map frameLine)

/-- `_fingerprint_from_exc_info`: joins the statically extracted traceback
summary of `hint["exc_info"][2]`. -/
def fingerprint_from_exc_info (tb : List Frame) : String :=
  fingerprintOfFrames tb

/-- `_fingerprint_from_threads`: fails when `len(values) > 1`, then indexes
`values[0]` (an `IndexError` when the list is empty) and joins that thread's
stacktrace frames. -/
def fingerprint_from_threads (values : List ThreadValue) : Except FpError String :=
  if values.length > 1 then
    .error .ambiguousMultiThread
  else
    match values.head? with
    | none => .error .indexOutOfBounds
    | some v => .ok (fingerprintOfFrames v.frames)

/-- `_fingerprint_from_log_record`:
`f"LogRecord {log_record.pathname}:{log_record.lineno} {log_record.msg}"`. -/
def fingerprint_from_log_record (lr : LogRecord) : String :=
  "LogRecord " ++ lr.pathname ++ ":" ++ toString lr.lineno ++ " " ++ lr.msg

/-- `build_event_fingerprint`: first-match-wins over the three recognized
shapes, in source order (`exc_info` in hint, then `threads` in event, then
`log_record` in hint), else the trailing `NotImplementedError`. -/
def build_event_fingerprint (event : Event) (hint : Hint) : Except FpError String :=
  match hint.excInfo with
  | some tb => .ok (fingerprint_from_exc_info tb)
  | none =>
    match event.threads with
    | some values => fingerprint_from_threads values
    | none =>
      match hint.logRecord with
      | some lr => .ok (fingerprint_from_log_record lr)
      | none => .error .unsupportedShape

/-- The state of `PerProcessPerIssueEventLimiter`: the window duration in
seconds, the per-window cap, and the fingerprint-indexed timestamp records. -/
structure Limiter where
  rate_limit_window : Int
  rate_limit_number_of_events : Int
  recorded : String → List Int

/-- `PerProcessPerIssueEventLimiter.__init__`: empty records,
`rate_limit_window = timedelta(minutes=rate_limit_window_minutes)`. -/
def Limiter.init (rate_limit_window_minutes rate_limit_number_of_events : Int) : Limiter :=
  { rate_limit_window := 60 * rate_limit_window_minutes
    rate_limit_number_of_events := rate_limit_number_of_events
    recorded := fun _ => [] }

/-- The inner loop of `remove_old_records` on one deque:
`while timestamps and timestamps[0] < boundary: timestamps.popleft()`. -/
def purgeTimestamps (boundary : Int) : List Int → List Int
  | [] => []
  | t :: ts => if t < boundary then purgeTimestamps boundary ts else t :: ts

/-- `remove_old_records`: pops expired leading timestamps from every record
(`for timestamps in self.recorded.values()`), with
`boundary = now - self.rate_limit_window`. -/
def Limiter.remove_old_records (s : Limiter) (now : Int) : Limiter :=
  { s with recorded := fun fp => purgeTimestamps (now - s.rate_limit_window) (s.recorded fp) }

/-- The body of `should_rate_limit` after the fingerprint has been computed:
purge, read the fingerprint's record, compare its length to the cap, and
append `now` only when the event is not dropped.  Returns the decision
(`true` = drop) together with the post-call state. -/
def Limiter.shouldRateLimitFp (s : Limiter) (fingerprint : String) (now : Int) :
    Bool × Limiter :=
  let s1 := s.remove_old_records now
  let fingerprint_timestamps := s1.recorded fingerprint
  if s1.rate_limit_number_of_events ≤ (fingerprint_timestamps.length : Int) then
    (true, s1)
  else
    (false, { s1 with
      recorded := fun g =>
        if g = fingerprint then fingerprint_timestamps ++ [now] else s1.recorded g })

/-- `should_rate_limit`: computes the fingerprint (propagating extraction
failures, which occur before any state mutation), then runs the
purge/decide/append sequence at the current time. -/
def Limiter.should_rate_limit (s : Limiter) (event : Event) (hint : Hint) (now : Int) :
    Except FpError (Bool × Limiter) :=
  match build_event_fingerprint event hint with
  | .error e => .error e
  | .ok fingerprint => .ok (s.shouldRateLimitFp fingerprint now)

/-- `before_send`: calls `should_rate_limit` inside `try/except`; on any
failure logs one warning and admits the event, otherwise translates the
decision (`true ↦ None`, `false ↦ event`).  The result records the returned
value, the post-call state, and how many warnings were logged. -/
def Limiter.before_send (s : Limiter) (event : Event) (hint : Hint) (now : Int) :
    Option Event × Limiter × Nat :=
  match s.should_rate_limit event hint now with
  | .error _ => (some event, s, 1)
  | .ok (true, s') => (none, s', 0)
  | .ok (false, s') => (some event, s', 0)

/-- One capture processed by the limiter: state transition of
`should_rate_limit` (a raised extraction failure leaves the state unchanged,
since it happens before any mutation). -/
def Limiter.step (s : Limiter) (c : Event × Hint × Int) : Limiter :=
  match s.should_rate_limit c.1 c.2.1 c.2.2 with
  | .error _ => s
  | .ok r => r.2

/-- A sequence of captures processed in order. -/
def Limiter.run (s : Limiter) (calls : List (Event × Hint × Int)) : Limiter :=
  calls.foldl Limiter.step s

/-- The decision sequence for repeated occurrences of one fixed fingerprint
at the given times. -/
def runDecisionsFp (s : Limiter) (fingerprint : String) : List Int → List Bool
  | [] => []
  | now :: rest =>
    let r := s.shouldRateLimitFp fingerprint now
    r.1 :: runDecisionsFp r.2 fingerprint rest

/-- Projection used to observe one fingerprint's record in the state returned
by a (possibly failing) call. -/
def resultRecordAt (r : Except FpError (Bool × Limiter)) (fingerprint : String) :
    Option (List Int) :=
  match r with
  | .error _ => none
  | .ok (_, s) => some (s.recorded fingerprint)

/-- A concrete limiter state holding one recorded timestamp for the
fingerprint "a", used to exercise calls arriving for a different
fingerprint. -/
def otherFingerprintState : Limiter :=
  { rate_limit_window := 60
    rate_limit_number_of_events := 2
    recorded := fun g => if g = "a" then [0] else [] }

/-- Invariant carried through runs: every record is sorted oldest-first and
all of its timestamps are at most `t`. -/
def recordsSortedLE (s : Limiter) (t : Int) : Prop :=
  ∀ fp, List.Sorted (· ≤ ·) (s.recorded fp) ∧ ∀ x ∈ s.recorded fp, x ≤ t

/-- Invariant for the cap bound: no record is longer than the configured
maximum number of events. -/
def recordsLenLE (s : Limiter) : Prop :=
  ∀ fp, ((s.recorded fp).length : Int) ≤ s.rate_limit_number_of_events

/-- The (file, line) pair a frame contributes to the fingerprint. -/
def frameKey (fr : Frame) : String × Nat :=
  (fr.filename, fr.lineno)

/-- Character-level counterpart of `joinLines`. -/
def joinCharsNL : List (List Char) → List Char
  | [] => []
  | [s] => s
  | s :: rest => s ++ '\n' :: joinCharsNL rest

/-- Base-10 value of a digit string, used to invert `Nat.repr`. -/
def val10 (l : List Char) : Nat :=
  l.foldl (fun a c => 10 * a + (c.toNat - 48)) 0

/-! ### Basic lemmas about the limiter operations -/

theorem remove_old_records_window (s : Limiter) (now : Int) :
    (s.remove_old_records now).rate_limit_window = s.rate_limit_window := rfl

theorem remove_old_records_cap (s : Limiter) (now : Int) :
    (s.remove_old_records now).rate_limit_number_of_events =
      s.rate_limit_number_of_events := rfl

theorem remove_old_records_recorded (s : Limiter) (now : Int) (fp : String) :
    (s.remove_old_records now).recorded fp =
      purgeTimestamps (now - s.rate_limit_window) (s.recorded fp) := rfl

/-! ### Claim theorems: decision logic -/

/-- Claim C1: for every limiter state and every event/hint pair whose
fingerprint extraction succeeds, `should_rate_limit` first purges entries
older than `now − window`; if the purged record of that fingerprint already
holds at least `rate_limit_number_of_events` timestamps it returns `true`
(drop) without appending `now`, otherwise it appends `now` to that
fingerprint's record and returns `false` (admit). -/
theorem claim1_should_rate_limit_decision (s : Limiter) (e : Event) (h : Hint)
    (now : Int) (fp : String) (hfp : build_event_fingerprint e h = .ok fp) :
    (s.rate_limit_number_of_events ≤ (((s.remove_old_records now).recorded fp).length : Int) →
      s.should_rate_limit e h now = .ok (true, s.remove_old_records now)) ∧
    ((((s.remove_old_records now).recorded fp).length : Int) < s.rate_limit_number_of_events →
      s.should_rate_limit e h now = .ok (false,
        { s.remove_old_records now with
          recorded := fun g =>
            if g = fp then (s.remove_old_records now).recorded fp ++ [now]
            else (s.remove_old_records now).recorded g })) := by
  constructor
  · intro hc
    simp only [Limiter.should_rate_limit, hfp, Limiter.shouldRateLimitFp,
      remove_old_records_cap]
    rw [if_pos hc]
  · intro hc
    simp only [Limiter.should_rate_limit, hfp, Limiter.shouldRateLimitFp,
      remove_old_records_cap]
    rw [if_neg (not_le.mpr hc)]

/-- Witness for C1 at a concrete input: empty state admits, appending the
current timestamp; a state already at the cap drops without appending. -/
theorem claim1_witness :
    (Limiter.init 1 2).should_rate_limit ⟨none⟩ ⟨none, some ⟨"p", 1, "m"⟩⟩ 5 =
      .ok (false,
        { (Limiter.init 1 2).remove_old_records 5 with
          recorded := fun g =>
            if g = "LogRecord p:1 m"
            then ((Limiter.init 1 2).remove_old_records 5).recorded "LogRecord p:1 m" ++ [5]
            else ((Limiter.init 1 2).remove_old_records 5).recorded g }) :=
  (claim1_should_rate_limit_decision (Limiter.init 1 2) ⟨none⟩ ⟨none, some ⟨"p", 1, "m"⟩⟩
    5 "LogRecord p:1 m" rfl).2 (by decide)

/-- Claim C2: `before_send` never raises: when `should_rate_limit` fails it
logs exactly one warning and returns the event unchanged; when it returns
`true` the event is suppressed (`none`); when it returns `false` the event is
returned unchanged; in particular the malformed input `({}, {})` is returned
unchanged with exactly one warning. -/
theorem claim2_before_send_never_raises (s : Limiter) (e : Event) (h : Hint) (now : Int) :
    (∀ err, s.should_rate_limit e h now = .error err →
      s.before_send e h now = (some e, s, 1)) ∧
    (∀ s', s.should_rate_limit e h now = .ok (true, s') →
      s.before_send e h now = (none, s', 0)) ∧
    (∀ s', s.should_rate_limit e h now = .ok (false, s') →
      s.before_send e h now = (some e, s', 0)) ∧
    s.before_send ⟨none⟩ ⟨none, none⟩ now = (some ⟨none⟩, s, 1) := by
  refine ⟨?_, ?_, ?_, rfl⟩
  · intro err herr
    unfold Limiter.before_send
    rw [herr]
  · intro s' hok
    unfold Limiter.before_send
    rw [hok]
  · intro s' hok
    unfold Limiter.before_send
    rw [hok]

/-- Witness for C2: the malformed input `({}, {})` is admitted unchanged with
exactly one warning logged. -/
theorem claim2_witness :
    (Limiter.init 1 2).before_send ⟨none⟩ ⟨none, none⟩ 0 =
      (some ⟨none⟩, Limiter.init 1 2, 1) :=
  (claim2_before_send_never_raises (Limiter.init 1 2) ⟨none⟩ ⟨none, none⟩ 0).1
    .unsupportedShape rfl

/-- Claim C3: for a fixed fingerprint the issue is never permanently
silenced: whenever the purged record's length falls below the cap the next
occurrence is admitted; and a dropped occurrence is never recorded — the
post-call state of a drop is exactly the purged state, so drops never count
toward the cap in any later decision. -/
theorem claim3_recovery_and_drop_not_recorded (s : Limiter) (fp : String) (now : Int) :
    ((((s.remove_old_records now).recorded fp).length : Int) <
        s.rate_limit_number_of_events →
      (s.shouldRateLimitFp fp now).1 = false) ∧
    ((s.shouldRateLimitFp fp now).1 = true →
      (s.shouldRateLimitFp fp now).2 = s.remove_old_records now) := by
  constructor
  · intro hc
    simp only [Limiter.shouldRateLimitFp, remove_old_records_cap]
    rw [if_neg (not_le.mpr hc)]
  · intro hc
    simp only [Limiter.shouldRateLimitFp, remove_old_records_cap] at hc ⊢
    by_cases hd : s.rate_limit_number_of_events ≤
        (((s.remove_old_records now).recorded fp).length : Int)
    · rw [if_pos hd]
    · rw [if_neg hd] at hc
      exact absurd hc (by simp)

/-- Witness for C3: an empty record below the cap admits; with a cap of zero
every occurrence is dropped and the state stays the purged state. -/
theorem claim3_witness :
    ((Limiter.init 1 2).shouldRateLimitFp "fp" 5).1 = false ∧
    ((Limiter.init 1 0).shouldRateLimitFp "fp" 5).2 =
      (Limiter.init 1 0).remove_old_records 5 :=
  ⟨(claim3_recovery_and_drop_not_recorded (Limiter.init 1 2) "fp" 5).1 (by decide),
   (claim3_recovery_and_drop_not_recorded (Limiter.init 1 0) "fp" 5).2 rfl⟩

/-- Claim C4, counterexample: with cap 2 and a one-minute window, the claimed
decision sequence admit, admit, drop, admit, admit, admit, drop at times
`t0, t0, t0, t0+61s, t0+61s, t0+105s, t0+105s` is not what the code computes:
occurrences 4 and 5 (both at `t0+61s`) are still inside the window at
`t0+105s` (which reaches back to `t0+45s`), so occurrence 6 is dropped. -/
theorem claim4_counterexample :
    runDecisionsFp (Limiter.init 1 2) "fp" [0, 0, 0, 61, 61, 105, 105] ≠
      [false, false, true, false, false, false, true] := by decide

/-- Claim C4 as amended: with cap 2 and a one-minute window the code
admits occurrences 1 and 2 at `t0`, drops occurrence 3 at `t0`, admits
occurrences 4 and 5 at `t0+61s`, and drops occurrences 6 and 7 at
`t0+105s`. -/
theorem claim4_amended_scenario :
    runDecisionsFp (Limiter.init 1 2) "fp" [0, 0, 0, 61, 61, 105, 105] =
      [false, false, true, false, false, true, true] := by decide

/-- Claim C5: fingerprint extraction tries the recognized shapes in fixed
first-match-wins order (raw exception traceback in the hint, then thread
stack data in the event, then structured log record in the hint), fails with
the unsupported-shape error when none is present, and fails with the
ambiguous-multi-thread error when the thread fallback is reached and the
event carries more than one thread entry. -/
theorem claim5_fingerprint_resolution_order (e : Event) (h : Hint) :
    (∀ tb, h.excInfo = some tb →
      build_event_fingerprint e h = .ok (fingerprint_from_exc_info tb)) ∧
    (h.excInfo = none → ∀ values, e.threads = some values →
      build_event_fingerprint e h = fingerprint_from_threads values) ∧
    (h.excInfo = none → e.threads = none → ∀ lr, h.logRecord = some lr →
      build_event_fingerprint e h = .ok (fingerprint_from_log_record lr)) ∧
    (h.excInfo = none → e.threads = none → h.logRecord = none →
      build_event_fingerprint e h = .error .unsupportedShape) ∧
    (h.excInfo = none → ∀ values, e.threads = some values → 1 < values.length →
      build_event_fingerprint e h = .error .ambiguousMultiThread) := by
  refine ⟨?_, ?_, ?_, ?_, ?_⟩
  · intro tb htb
    simp [build_event_fingerprint, htb]
  · intro hexc values hval
    simp [build_event_fingerprint, hexc, hval]
  · intro hexc hth lr hlr
    simp [build_event_fingerprint, hexc, hth, hlr]
  · intro hexc hth hlr
    simp [build_event_fingerprint, hexc, hth, hlr]
  · intro hexc values hval hlen
    simp [build_event_fingerprint, hexc, hval, fingerprint_from_threads, hlen]

/-- Witness for C5: a two-thread event without exception info fails with the
ambiguous-multi-thread error, and the fully empty input fails with the
unsupported-shape error. -/
theorem claim5_witness :
    build_event_fingerprint ⟨some [⟨[⟨"a", 1, "f"⟩]⟩, ⟨[⟨"b", 2, "g"⟩]⟩]⟩ ⟨none, none⟩ =
      .error .ambiguousMultiThread ∧
    build_event_fingerprint ⟨none⟩ ⟨none, none⟩ = .error .unsupportedShape :=
  ⟨(claim5_fingerprint_resolution_order ⟨some [⟨[⟨"a", 1, "f"⟩]⟩, ⟨[⟨"b", 2, "g"⟩]⟩]⟩
      ⟨none, none⟩).2.2.2.2 rfl _ rfl (by decide),
   (claim5_fingerprint_resolution_order ⟨none⟩ ⟨none, none⟩).2.2.2.1 rfl rfl rfl⟩

/-- Claim C6, counterexample: a call for one fingerprint does not leave all
other fingerprints' records unchanged — `remove_old_records` purges every
record.  Here a call whose fingerprint is "LogRecord p:1 m" empties the
record of the unrelated fingerprint "a". -/
theorem claim6_counterexample :
    resultRecordAt
        (otherFingerprintState.should_rate_limit ⟨none⟩ ⟨none, some ⟨"p", 1, "m"⟩⟩ 100) "a" =
      some [] ∧
    otherFingerprintState.recorded "a" = [0] ∧
    (some [] : Option (List Int)) ≠ some [0] :=
  ⟨rfl, rfl, by decide⟩

/-- Claim C6 as amended: a successful call to `should_rate_limit` modifies
the computed fingerprint's record (purge plus conditional append), and every
other fingerprint's record only by purging its entries older than
`now − window`; other fingerprints' in-window entries are untouched. -/
theorem claim6_amended_frame (s : Limiter) (e : Event) (h : Hint) (now : Int)
    (fp : String) (hfp : build_event_fingerprint e h = .ok fp)
    (b : Bool) (s' : Limiter) (hcall : s.should_rate_limit e h now = .ok (b, s')) :
    ∀ g, g ≠ fp →
      s'.recorded g = purgeTimestamps (now - s.rate_limit_window) (s.recorded g) := by
  intro g hg
  simp only [Limiter.should_rate_limit, hfp, Limiter.shouldRateLimitFp] at hcall
  split at hcall
  · rw [Except.ok.injEq, Prod.mk.injEq] at hcall
    obtain ⟨-, hs⟩ := hcall
    subst hs
    exact remove_old_records_recorded s now g
  · rw [Except.ok.injEq, Prod.mk.injEq] at hcall
    obtain ⟨-, hs⟩ := hcall
    subst hs
    show (if g = fp then (s.remove_old_records now).recorded fp ++ [now]
        else (s.remove_old_records now).recorded g) =
      purgeTimestamps (now - s.rate_limit_window) (s.recorded g)
    rw [if_neg hg]
    exact remove_old_records_recorded s now g

/-- Witness for C6 as amended, at a concrete input: the unrelated
fingerprint "a" ends up with exactly the purge of its previous record. -/
theorem claim6_witness :
    ((otherFingerprintState.shouldRateLimitFp "LogRecord p:1 m" 100).2).recorded "a" =
      purgeTimestamps (100 - otherFingerprintState.rate_limit_window)
        (otherFingerprintState.recorded "a") :=
  claim6_amended_frame otherFingerprintState ⟨none⟩ ⟨none, some ⟨"p", 1, "m"⟩⟩ 100
    "LogRecord p:1 m" rfl false
    ((otherFingerprintState.shouldRateLimitFp "LogRecord p:1 m" 100).2) rfl
    "a" (by decide)

/-- Claim C10: an event whose "threads" key holds an empty values list, with
no exception info in the hint, makes `build_event_fingerprint` fail with the
out-of-bounds indexing error on `values[0]`, not with either typed failure. -/
theorem claim10_empty_threads_index_error (e : Event) (h : Hint)
    (hexc : h.excInfo = none) (hth : e.threads = some []) :
    build_event_fingerprint e h = .error .indexOutOfBounds ∧
    FpError.indexOutOfBounds ≠ FpError.unsupportedShape ∧
    FpError.indexOutOfBounds ≠ FpError.ambiguousMultiThread := by
  refine ⟨?_, by decide, by decide⟩
  simp [build_event_fingerprint, hexc, hth, fingerprint_from_threads]

/-- Witness for C10 at a concrete input: the presence of a log record does
not rescue the empty-threads event. -/
theorem claim10_witness :
    build_event_fingerprint ⟨some []⟩ ⟨none, some ⟨"p", 1, "m"⟩⟩ =
      .error .indexOutOfBounds :=
  (claim10_empty_threads_index_error ⟨some []⟩ ⟨none, some ⟨"p", 1, "m"⟩⟩ rfl rfl).1

/-! ### Purge lemmas -/

theorem purgeTimestamps_suffix (b : Int) (l : List Int) :
    purgeTimestamps b l <:+ l := by
  induction l with
  | nil => exact List.suffix_refl _
  | cons t ts ih =>
    simp only [purgeTimestamps]
    split
    · exact ih.trans (List.suffix_cons t ts)
    · exact List.suffix_refl _

theorem purgeTimestamps_subset {b : Int} {l : List Int} :
    ∀ x ∈ purgeTimestamps b l, x ∈ l :=
  fun _ hx => (purgeTimestamps_suffix b l).sublist.subset hx

theorem purgeTimestamps_sorted {l : List Int} (hl : List.Sorted (· ≤ ·) l) (b : Int) :
    List.Sorted (· ≤ ·) (purgeTimestamps b l) :=
  List.Pairwise.sublist (purgeTimestamps_suffix b l).sublist hl

theorem purgeTimestamps_length (b : Int) (l : List Int) :
    (purgeTimestamps b l).length ≤ l.length :=
  (purgeTimestamps_suffix b l).sublist.length_le

theorem purgeTimestamps_bound {l : List Int} (hl : List.Sorted (· ≤ ·) l) (b : Int) :
    ∀ x ∈ purgeTimestamps b l, b ≤ x := by
  induction l with
  | nil => intro x hx; simp [purgeTimestamps] at hx
  | cons t ts ih =>
    intro x hx
    rw [List.sorted_cons] at hl
    simp only [purgeTimestamps] at hx
    split at hx
    · exact ih hl.2 x hx
    · rename_i hnot
      rcases List.mem_cons.mp hx with hx | hx
      · subst hx; omega
      · exact le_trans (not_lt.mp hnot) (hl.1 x hx)

/-! ### Sortedness and time-bound invariant (claim C7) -/

theorem recordsSortedLE_mono {s : Limiter} {t u : Int} (h : recordsSortedLE s t)
    (htu : t ≤ u) : recordsSortedLE s u :=
  fun fp => ⟨(h fp).1, fun x hx => le_trans ((h fp).2 x hx) htu⟩

theorem recordsSortedLE_remove {s : Limiter} {t : Int} (h : recordsSortedLE s t)
    (now : Int) : recordsSortedLE (s.remove_old_records now) t :=
  fun fp =>
    ⟨purgeTimestamps_sorted (h fp).1 _,
     fun x hx => (h fp).2 x (purgeTimestamps_subset x hx)⟩

theorem shouldRateLimitFp_sortedLE {s : Limiter} {t : Int} (fp : String) {now : Int}
    (h : recordsSortedLE s t) (hle : t ≤ now) :
    recordsSortedLE (s.shouldRateLimitFp fp now).2 now := by
  have h1 : recordsSortedLE (s.remove_old_records now) now :=
    recordsSortedLE_mono (recordsSortedLE_remove h now) hle
  simp only [Limiter.shouldRateLimitFp]
  split
  · exact h1
  · intro g
    show List.Sorted (· ≤ ·)
        (if g = fp then (s.remove_old_records now).recorded fp ++ [now]
         else (s.remove_old_records now).recorded g) ∧
      ∀ x ∈ (if g = fp then (s.remove_old_records now).recorded fp ++ [now]
         else (s.remove_old_records now).recorded g), x ≤ now
    by_cases hg : g = fp
    · rw [if_pos hg]
      constructor
      · refine List.pairwise_append.mpr ⟨(h1 fp).1, by simp, ?_⟩
        intro a ha b hb
        rw [List.mem_singleton] at hb
        subst hb
        exact (h1 fp).2 a ha
      · intro x hx
        rcases List.mem_append.mp hx with hx | hx
        · exact (h1 fp).2 x hx
        · rw [List.mem_singleton] at hx
          subst hx
          exact le_rfl
    · rw [if_neg hg]
      exact h1 g

theorem step_sortedLE {s : Limiter} {t : Int} {c : Event × Hint × Int}
    (h : recordsSortedLE s t) (hle : t ≤ c.2.2) :
    recordsSortedLE (s.step c) c.2.2 := by
  simp only [Limiter.step, Limiter.should_rate_limit]
  cases hb : build_event_fingerprint c.1 c.2.1 with
  | error err => exact recordsSortedLE_mono h hle
  | ok fp => exact shouldRateLimitFp_sortedLE fp h hle

theorem run_sortedLE : ∀ (calls : List (Event × Hint × Int)) (s : Limiter) (t : Int),
    recordsSortedLE s t → List.Chain (· ≤ ·) t (calls.map fun c => c.2.2) →
    ∃ u, recordsSortedLE (s.run calls) u := by
  intro calls
  induction calls with
  | nil => intro s t h _; exact ⟨t, h⟩
  | cons c rest ih =>
    intro s t h hchain
    rw [List.map_cons, List.chain_cons] at hchain
    exact ih (s.step c) c.2.2 (step_sortedLE h hchain.1) hchain.2

/-- Claim C7: in any run whose call times are monotonic non-decreasing, every
fingerprint's record is sorted oldest-first at all times (every run prefix is
itself such a run), and every timestamp retained by a purge at time `now`
satisfies `now − window ≤ timestamp`. -/
theorem claim7_purge_bound_and_sorted (wm cap : Int)
    (calls : List (Event × Hint × Int))
    (hmono : List.Chain' (· ≤ ·) (calls.map fun c => c.2.2)) (fp : String) :
    List.Sorted (· ≤ ·) (((Limiter.init wm cap).run calls).recorded fp) ∧
    ∀ now x,
      x ∈ (((Limiter.init wm cap).run calls).remove_old_records now).recorded fp →
      now - ((Limiter.init wm cap).run calls).rate_limit_window ≤ x := by
  have hsorted : List.Sorted (· ≤ ·) (((Limiter.init wm cap).run calls).recorded fp) := by
    cases calls with
    | nil => exact List.sorted_nil
    | cons c rest =>
      have hinit : recordsSortedLE (Limiter.init wm cap) c.2.2 :=
        fun g => ⟨List.sorted_nil, by intro x hx; simp [Limiter.init] at hx⟩
      rw [List.map_cons] at hmono
      obtain ⟨u, hu⟩ := run_sortedLE (c :: rest) (Limiter.init wm cap) c.2.2 hinit
        (List.Chain.cons (le_refl _) hmono)
      exact (hu fp).1
  exact ⟨hsorted, fun now x hx => purgeTimestamps_bound hsorted _ x hx⟩

/-- Witness for C7 at a concrete monotone run of two log-record captures. -/
theorem claim7_witness :
    List.Sorted (· ≤ ·) (((Limiter.init 1 2).run
      [(⟨none⟩, ⟨none, some ⟨"p", 1, "m"⟩⟩, 0),
       (⟨none⟩, ⟨none, some ⟨"p", 1, "m"⟩⟩, 10)]).recorded "LogRecord p:1 m") :=
  (claim7_purge_bound_and_sorted 1 2
    [(⟨none⟩, ⟨none, some ⟨"p", 1, "m"⟩⟩, 0),
     (⟨none⟩, ⟨none, some ⟨"p", 1, "m"⟩⟩, 10)]
    (show List.Chain' (· ≤ ·) [(0 : Int), 10] from
      List.chain'_cons.mpr ⟨by decide, List.chain'_singleton _⟩)
    "LogRecord p:1 m").1

/-! ### Cap bound invariant (claim C9) -/

theorem shouldRateLimitFp_cap (s : Limiter) (fp : String) (now : Int) :
    ((s.shouldRateLimitFp fp now).2).rate_limit_number_of_events =
      s.rate_limit_number_of_events := by
  simp only [Limiter.shouldRateLimitFp]
  split <;> rfl

theorem step_cap (s : Limiter) (c : Event × Hint × Int) :
    (s.step c).rate_limit_number_of_events = s.rate_limit_number_of_events := by
  simp only [Limiter.step, Limiter.should_rate_limit]
  cases hb : build_event_fingerprint c.1 c.2.1 with
  | error err => rfl
  | ok fp => exact shouldRateLimitFp_cap s fp c.2.2

theorem run_cap : ∀ (calls : List (Event × Hint × Int)) (s : Limiter),
    (s.run calls).rate_limit_number_of_events = s.rate_limit_number_of_events := by
  intro calls
  induction calls with
  | nil => intro s; rfl
  | cons c rest ih => intro s; rw [show s.run (c :: rest) = (s.step c).run rest from rfl,
      ih (s.step c), step_cap]

theorem remove_lenLE {s : Limiter} (h : recordsLenLE s) (now : Int) :
    recordsLenLE (s.remove_old_records now) := by
  intro g
  refine le_trans ?_ (h g)
  exact_mod_cast Int.ofNat_le.mpr (purgeTimestamps_length _ _)

theorem shouldRateLimitFp_lenLE {s : Limiter} (fp : String) (now : Int)
    (h : recordsLenLE s) : recordsLenLE (s.shouldRateLimitFp fp now).2 := by
  have hrem : recordsLenLE (s.remove_old_records now) := remove_lenLE h now
  simp only [Limiter.shouldRateLimitFp]
  split
  · exact hrem
  · rename_i hlt
    rw [remove_old_records_cap] at hlt
    intro g
    show ((if g = fp then (s.remove_old_records now).recorded fp ++ [now]
        else (s.remove_old_records now).recorded g).length : Int) ≤
      s.rate_limit_number_of_events
    by_cases hg : g = fp
    · rw [if_pos hg]
      rw [List.length_append, List.length_singleton]
      have := not_le.mp hlt
      push_cast
      push_cast at this
      omega
    · rw [if_neg hg]
      exact hrem g

theorem step_lenLE {s : Limiter} {c : Event × Hint × Int} (h : recordsLenLE s) :
    recordsLenLE (s.step c) := by
  simp only [Limiter.step, Limiter.should_rate_limit]
  cases hb : build_event_fingerprint c.1 c.2.1 with
  | error err => exact h
  | ok fp => exact shouldRateLimitFp_lenLE fp c.2.2 h

theorem run_lenLE : ∀ (calls : List (Event × Hint × Int)) (s : Limiter),
    recordsLenLE s → recordsLenLE (s.run calls) := by
  intro calls
  induction calls with
  | nil => intro s h; exact h
  | cons c rest ih => intro s h; exact ih (s.step c) (step_lenLE h)

/-- Claim C9: assuming the configured cap is non-negative, no fingerprint's
record in any reachable limiter state ever holds more than the cap many
timestamps — records start empty, purging only shrinks them, and appends only
happen strictly below the cap. -/
theorem claim9_records_bounded_by_cap (wm cap : Int) (hcap : 0 ≤ cap)
    (calls : List (Event × Hint × Int)) (fp : String) :
    ((((Limiter.init wm cap).run calls).recorded fp).length : Int) ≤ cap := by
  have hinit : recordsLenLE (Limiter.init wm cap) := by
    intro g
    simpa [Limiter.init] using hcap
  have hrun := run_lenLE calls (Limiter.init wm cap) hinit fp
  rwa [run_cap] at hrun

/-- Witness for C9 at a concrete run with cap 2. -/
theorem claim9_witness :
    ((((Limiter.init 1 2).run
        [(⟨none⟩, ⟨none, some ⟨"p", 1, "m"⟩⟩, 0)]).recorded "LogRecord p:1 m").length :
      Int) ≤ 2 :=
  claim9_records_bounded_by_cap 1 2 (by decide)
    [(⟨none⟩, ⟨none, some ⟨"p", 1, "m"⟩⟩, 0)] "LogRecord p:1 m"

/-! ### Digit facts about the decimal rendering used in fingerprints -/

theorem digitChar_isDigit : ∀ m, m < 10 → (Nat.digitChar m).isDigit = true := by decide

theorem digitChar_val : ∀ m, m < 10 → (Nat.digitChar m).toNat - 48 = m := by decide

theorem mem_toDigitsCore : ∀ (fuel n : Nat) (ds : List Char) (c : Char),
    c ∈ Nat.toDigitsCore 10 fuel n ds → c ∈ ds ∨ c.isDigit = true := by
  intro fuel
  induction fuel with
  | zero => intro n ds c hc; exact Or.inl hc
  | succ fuel ih =>
    intro n ds c hc
    simp only [Nat.toDigitsCore] at hc
    split at hc
    · rcases List.mem_cons.mp hc with hc | hc
      · subst hc
        exact Or.inr (digitChar_isDigit _ (Nat.mod_lt _ (by decide)))
      · exact Or.inl hc
    · rcases ih (n / 10) (Nat.digitChar (n % 10) :: ds) c hc with hc | hc
      · rcases List.mem_cons.mp hc with hc | hc
        · subst hc
          exact Or.inr (digitChar_isDigit _ (Nat.mod_lt _ (by decide)))
        · exact Or.inl hc
      · exact Or.inr hc

theorem repr_data_isDigit (n : Nat) : ∀ c ∈ (Nat.repr n).data, c.isDigit = true := by
  intro c hc
  have hdata : (Nat.repr n).data = Nat.toDigitsCore 10 (n + 1) n [] := rfl
  rw [hdata] at hc
  rcases mem_toDigitsCore (n + 1) n [] c hc with hc | hc
  · exact absurd hc (List.not_mem_nil c)
  · exact hc

theorem colon_not_mem_repr (n : Nat) : ':' ∉ (Nat.repr n).data :=
  fun hc => absurd (repr_data_isDigit n _ hc) (by decide)

theorem newline_not_mem_repr (n : Nat) : '\n' ∉ (Nat.repr n).data :=
  fun hc => absurd (repr_data_isDigit n _ hc) (by decide)

theorem toDigitsCore_acc : ∀ (fuel n : Nat) (ds : List Char),
    Nat.toDigitsCore 10 fuel n ds = Nat.toDigitsCore 10 fuel n [] ++ ds := by
  intro fuel
  induction fuel with
  | zero => intro n ds; rfl
  | succ fuel ih =>
    intro n ds
    simp only [Nat.toDigitsCore]
    split
    · rfl
    · rw [ih (n / 10) (Nat.digitChar (n % 10) :: ds), ih (n / 10) [Nat.digitChar (n % 10)]]
      rw [List.append_assoc, List.singleton_append]

theorem val10_append_digit (l : List Char) (c : Char) :
    val10 (l ++ [c]) = 10 * val10 l + (c.toNat - 48) := by
  simp [val10, List.foldl_append]

theorem val10_toDigitsCore : ∀ (fuel n : Nat), n < fuel →
    val10 (Nat.toDigitsCore 10 fuel n []) = n := by
  intro fuel
  induction fuel with
  | zero => intro n hn; exact absurd hn (Nat.not_lt_zero n)
  | succ fuel ih =>
    intro n hn
    simp only [Nat.toDigitsCore]
    split
    · rename_i h0
      have hlt : n < 10 := by omega
      have hmod : n % 10 = n := Nat.mod_eq_of_lt hlt
      rw [hmod]
      have hval : val10 [Nat.digitChar n] = (Nat.digitChar n).toNat - 48 := by
        simp [val10]
      rw [hval]
      exact digitChar_val n hlt
    · rename_i h0
      rw [toDigitsCore_acc, val10_append_digit]
      have hne : n ≠ 0 := fun h => h0 (by simp [h])
      have h10 : n / 10 < fuel := by
        have hlt2 : n / 10 < n := Nat.div_lt_self (Nat.pos_of_ne_zero hne) (by decide)
        omega
      rw [ih (n / 10) h10, digitChar_val (n % 10) (Nat.mod_lt _ (by decide))]
      omega

theorem natRepr_injective {m n : Nat} (h : Nat.repr m = Nat.repr n) : m = n := by
  have h1 : val10 (Nat.repr m).data = m := val10_toDigitsCore (m + 1) m (Nat.lt_succ_self m)
  have h2 : val10 (Nat.repr n).data = n := val10_toDigitsCore (n + 1) n (Nat.lt_succ_self n)
  rw [← h1, ← h2, h]

/-! ### Unique decoding of the fingerprint string -/

theorem append_sep_inj (sep : Char) : ∀ (e1 e2 r1 r2 : List Char),
    sep ∉ e1 → sep ∉ e2 → e1 ++ sep :: r1 = e2 ++ sep :: r2 → e1 = e2 ∧ r1 = r2 := by
  intro e1
  induction e1 with
  | nil =>
    intro e2 r1 r2 h1 h2 heq
    cases e2 with
    | nil => simpa using heq
    | cons c cs =>
      exfalso
      rw [List.nil_append, List.cons_append] at heq
      injection heq with h3 h4
      exact h2 (by rw [h3]; exact List.mem_cons_self c cs)
  | cons a as ih =>
    intro e2 r1 r2 h1 h2 heq
    cases e2 with
    | nil =>
      exfalso
      rw [List.cons_append, List.nil_append] at heq
      injection heq with h3 h4
      exact h1 (by rw [← h3]; exact List.mem_cons_self a as)
    | cons c cs =>
      rw [List.cons_append, List.cons_append] at heq
      injection heq with h3 h4
      have h1' : sep ∉ as := fun hm => h1 (List.mem_cons_of_mem a hm)
      have h2' : sep ∉ cs := fun hm => h2 (List.mem_cons_of_mem c hm)
      obtain ⟨he, hr⟩ := ih cs r1 r2 h1' h2' h4
      exact ⟨by rw [h3, he], hr⟩

theorem frameLine_data (fr : Frame) :
    (frameLine fr).data = fr.filename.data ++ ':' :: (Nat.repr fr.lineno).data := by
  simp only [frameLine, String.data_append, List.append_assoc]
  rfl

theorem frameLine_data_ne_nil (fr : Frame) : (frameLine fr).data ≠ [] := by
  rw [frameLine_data]
  simp

theorem frameLine_data_no_newline {fr : Frame} (h : '\n' ∉ fr.filename.data) :
    '\n' ∉ (frameLine fr).data := by
  rw [frameLine_data]
  intro hm
  rcases List.mem_append.mp hm with hm | hm
  · exact h hm
  · rcases List.mem_cons.mp hm with hm | hm
    · exact absurd hm (by decide)
    · exact newline_not_mem_repr _ hm

theorem frameLine_inj {f1 f2 : Frame}
    (heq : (frameLine f1).data = (frameLine f2).data) : frameKey f1 = frameKey f2 := by
  rw [frameLine_data, frameLine_data] at heq
  have hrev := congrArg List.reverse heq
  rw [List.reverse_append, List.reverse_append, List.reverse_cons, List.reverse_cons,
    List.append_assoc, List.append_assoc, List.singleton_append, List.singleton_append] at hrev
  obtain ⟨hr, hf⟩ := append_sep_inj ':' _ _ _ _
    (fun hm => colon_not_mem_repr f1.lineno (List.mem_reverse.mp hm))
    (fun hm => colon_not_mem_repr f2.lineno (List.mem_reverse.mp hm)) hrev
  have hfile : f1.filename = f2.filename := String.ext (List.reverse_injective hf)
  have hline : f1.lineno = f2.lineno :=
    natRepr_injective (String.ext (List.reverse_injective hr))
  simp [frameKey, hfile, hline]

theorem joinLines_data : ∀ l : List String,
    (joinLines l).data = joinCharsNL (l.map String.data) := by
  intro l
  induction l with
  | nil => rfl
  | cons s rest ih =>
    cases rest with
    | nil => rfl
    | cons y t =>
      show (s ++ "\n" ++ joinLines (y :: t)).data =
        s.data ++ '\n' :: joinCharsNL ((y :: t).map String.data)
      rw [String.data_append, String.data_append, ih, List.append_assoc]
      rfl

theorem joinCharsNL_inj : ∀ (l1 l2 : List (List Char)),
    (∀ s ∈ l1, s ≠ [] ∧ '\n' ∉ s) → (∀ s ∈ l2, s ≠ [] ∧ '\n' ∉ s) →
    joinCharsNL l1 = joinCharsNL l2 → l1 = l2 := by
  intro l1
  induction l1 with
  | nil =>
    intro l2 h1 h2 heq
    cases l2 with
    | nil => rfl
    | cons s t =>
      exfalso
      cases t with
      | nil => exact (h2 s (List.mem_cons_self s [])).1 heq.symm
      | cons y u =>
        rw [show joinCharsNL [] = [] from rfl] at heq
        rw [show joinCharsNL (s :: y :: u) = s ++ '\n' :: joinCharsNL (y :: u) from rfl] at heq
        exact List.cons_ne_nil '\n' _ (List.append_eq_nil.mp heq.symm).2
  | cons s1 t1 ih =>
    intro l2 h1 h2 heq
    cases l2 with
    | nil =>
      exfalso
      cases t1 with
      | nil => exact (h1 s1 (List.mem_cons_self s1 [])).1 heq
      | cons y u =>
        rw [show joinCharsNL (s1 :: y :: u) = s1 ++ '\n' :: joinCharsNL (y :: u) from rfl,
          show joinCharsNL [] = [] from rfl] at heq
        exact List.cons_ne_nil '\n' _ (List.append_eq_nil.mp heq).2
    | cons s2 t2 =>
      cases t1 with
      | nil =>
        cases t2 with
        | nil => rw [show joinCharsNL [s1] = s1 from rfl,
            show joinCharsNL [s2] = s2 from rfl] at heq; rw [heq]
        | cons y2 u2 =>
          exfalso
          rw [show joinCharsNL [s1] = s1 from rfl,
            show joinCharsNL (s2 :: y2 :: u2) = s2 ++ '\n' :: joinCharsNL (y2 :: u2)
              from rfl] at heq
          exact (h1 s1 (List.mem_cons_self s1 [])).2 (heq ▸ by simp)
      | cons y1 u1 =>
        cases t2 with
        | nil =>
          exfalso
          rw [show joinCharsNL (s1 :: y1 :: u1) = s1 ++ '\n' :: joinCharsNL (y1 :: u1)
              from rfl, show joinCharsNL [s2] = s2 from rfl] at heq
          exact (h2 s2 (List.mem_cons_self s2 [])).2 (heq ▸ by simp)
        | cons y2 u2 =>
          rw [show joinCharsNL (s1 :: y1 :: u1) = s1 ++ '\n' :: joinCharsNL (y1 :: u1)
              from rfl,
            show joinCharsNL (s2 :: y2 :: u2) = s2 ++ '\n' :: joinCharsNL (y2 :: u2)
              from rfl] at heq
          obtain ⟨hs, hj⟩ := append_sep_inj '\n' _ _ _ _
            (h1 s1 (List.mem_cons_self s1 _)).2 (h2 s2 (List.mem_cons_self s2 _)).2 heq
          have ht : y1 :: u1 = y2 :: u2 :=
            ih (y2 :: u2) (fun s hs => h1 s (List.mem_cons_of_mem s1 hs))
              (fun s hs => h2 s (List.mem_cons_of_mem s2 hs)) hj
          rw [hs, ht]

theorem frameData_map_inj : ∀ (fs1 fs2 : List Frame),
    fs1.map (fun fr => (frameLine fr).data) = fs2.map (fun fr => (frameLine fr).data) →
    fs1.map frameKey = fs2.map frameKey := by
  intro fs1
  induction fs1 with
  | nil =>
    intro fs2 h
    cases fs2 with
    | nil => rfl
    | cons g gs => exact absurd h (by simp)
  | cons f fs ih =>
    intro fs2 h
    cases fs2 with
    | nil => exact absurd h (by simp)
    | cons g gs =>
      rw [List.map_cons, List.map_cons] at h
      injection h with h1 h2
      rw [List.map_cons, List.map_cons, frameLine_inj h1, ih gs h2]

/-- Claim C8, counterexample: the unconditional injectivity direction fails —
a filename containing a newline makes two frame sequences with different
(file, line) pairs share one fingerprint string. -/
theorem claim8_counterexample :
    fingerprintOfFrames [⟨"a:1\nb", 2, "f"⟩] =
      fingerprintOfFrames [⟨"a", 1, "f"⟩, ⟨"b", 2, "g"⟩] ∧
    List.map frameKey [⟨"a:1\nb", 2, "f"⟩] ≠
      List.map frameKey [⟨"a", 1, "f"⟩, ⟨"b", 2, "g"⟩] :=
  ⟨rfl, by decide⟩

/-- Claim C8 as amended: the fingerprint is a deterministic function of the
(file, line) sequence — identical sequences give identical strings — and,
provided no filename contains a newline character, frame sequences with
different (file, line) sequences give different fingerprint strings. -/
theorem claim8_amended_deterministic_injective (fs1 fs2 : List Frame) :
    (fs1.map frameKey = fs2.map frameKey →
      fingerprintOfFrames fs1 = fingerprintOfFrames fs2) ∧
    ((∀ fr ∈ fs1, '\n' ∉ fr.filename.data) →
     (∀ fr ∈ fs2, '\n' ∉ fr.filename.data) →
      fingerprintOfFrames fs1 = fingerprintOfFrames fs2 →
      fs1.map frameKey = fs2.map frameKey) := by
  constructor
  · intro hkey
    unfold fingerprintOfFrames
    have hfact : ∀ fs : List Frame, fs.map frameLine =
        (fs.map frameKey).map (fun k => k.1 ++ ":" ++ toString k.2) := by
      intro fs
      rw [List.map_map]
      rfl
    rw [hfact fs1, hfact fs2, hkey]
  · intro h1 h2 heq
    have hdata := congrArg String.data heq
    unfold fingerprintOfFrames at hdata
    rw [joinLines_data, joinLines_data, List.map_map, List.map_map] at hdata
    have hseg : ∀ (fs : List Frame), (∀ fr ∈ fs, '\n' ∉ fr.filename.data) →
        ∀ s ∈ fs.map (String.data ∘ frameLine), s ≠ [] ∧ '\n' ∉ s := by
      intro fs hfs s hs
      rcases List.mem_map.mp hs with ⟨fr, hfr, rfl⟩
      exact ⟨frameLine_data_ne_nil fr, frameLine_data_no_newline (hfs fr hfr)⟩
    have hmap := joinCharsNL_inj _ _ (hseg fs1 h1) (hseg fs2 h2) hdata
    apply frameData_map_inj
    simpa [Function.comp] using hmap

/-- Witness for C8 as amended: frames agreeing on (file, line) but differing
in the unused function-name field share a fingerprint, and equal fingerprints
with newline-free filenames force equal (file, line) sequences. -/
theorem claim8_witness :
    fingerprintOfFrames [⟨"a", 1, "f"⟩] = fingerprintOfFrames [⟨"a", 1, "g"⟩] ∧
    List.map frameKey [⟨"b", 2, "f"⟩] = List.map frameKey [⟨"b", 2, "g"⟩] :=
  ⟨(claim8_amended_deterministic_injective [⟨"a", 1, "f"⟩] [⟨"a", 1, "g"⟩]).1 (by decide),
   (claim8_amended_deterministic_injective [⟨"b", 2, "f"⟩] [⟨"b", 2, "g"⟩]).2
     (by decide) (by decide) rfl⟩

end SentryRateLimiting
